import Mathlib

/-!
Verification of the employment-form utilities: a shallow embedding of
`src/utils/sanitize.ts`, `src/utils/calculations.ts`, the zod
`employmentSchema` (validation module), and the 500 ms trailing-edge
debounce wired up in `EmploymentForm.tsx`.

JavaScript strings are modelled as `String`/`List Char`; JavaScript
numbers as exact rationals extended with the IEEE special values
`NaN`, `+Infinity`, `-Infinity` (the operations the code performs on
these values — comparison, multiplication, division by 100, rounding —
are exact in IEEE double arithmetic for the cases the theorems touch);
`Date` values as civil calendar dates with a millisecond time-of-day,
with timestamps derived by the standard days-from-civil computation.
-/

attribute [local semireducible] Rat.add Rat.mul Rat.inv Rat.sub

/-- JavaScript number: a finite value (modelled exactly as a rational)
or one of the IEEE special values. -/
inductive JSNum where
  | num (q : ℚ)
  | nan
  | inf
  | ninf
  deriving DecidableEq, Repr

/-- JavaScript runtime value, as far as the sanitization pipeline
distinguishes inputs: strings, numbers, booleans, `null`, `undefined`,
`Date` objects, plain objects (own enumerable string-keyed fields, in
insertion order) and arrays. -/
inductive JSVal where
  | str (s : String)
  | numJ (n : JSNum)
  | boolJ (b : Bool)
  | nullJ
  | undef
  | date (y m d ms : Int)
  | obj (fields : List (String × JSVal))
  | arr (elems : List JSVal)

/-- One pass of `String.prototype.replace` with a global single-character
pattern: every occurrence of the character `c` is replaced by `r`,
every other character kept. -/
def repl (c : Char) (r : List Char) : List Char → List Char
  | [] => []
  | x :: xs => (if x = c then r else [x]) ++ repl c r xs

/-- `sanitizeString` from `src/utils/sanitize.ts`, on the character list:
the six sequential global replacements, ampersand first. -/
def sanitizeChars (s : List Char) : List Char :=
  repl '/' "&#x2F;".data
    (repl (Char.ofNat 39) "&#x27;".data
      (repl (Char.ofNat 34) "&quot;".data
        (repl '>' "&gt;".data
          (repl '<' "&lt;".data
            (repl '&' "&amp;".data s)))))

/-- `sanitizeString` on string inputs. -/
def sanitizeString (s : String) : String := ⟨sanitizeChars s.data⟩

/-- `sanitizeString` on an arbitrary runtime value: the
`typeof str !== 'string'` guard returns `""` for every non-string. -/
def sanitizeStringJS : JSVal → String
  | .str s => sanitizeString s
  | _ => ""

/-- Spec-side escape table (from the specification text): exactly the six
characters `& < > " ' /` map to their HTML entities, every other
character is left unchanged. -/
def escapeTable (c : Char) : List Char :=
  if c = '&' then "&amp;".data
  else if c = '<' then "&lt;".data
  else if c = '>' then "&gt;".data
  else if c = Char.ofNat 34 then "&quot;".data
  else if c = Char.ofNat 39 then "&#x27;".data
  else if c = '/' then "&#x2F;".data
  else [c]

/-- Spec-side sanitizer: one independent pass applying `escapeTable`
to each character of the input. -/
def escapeSpecChars : List Char → List Char
  | [] => []
  | c :: cs => escapeTable c ++ escapeSpecChars cs

/-- Spec-side description of `sanitizeString` on runtime values. -/
def sanitizeStringSpec : JSVal → String
  | .str s => ⟨escapeSpecChars s.data⟩
  | _ => ""

mutual

/-- How `sanitizeFormData` treats one field value (the body of the
`for key in data` loop in `src/utils/sanitize.ts`): strings are passed
through `sanitizeString`, `Date` instances are kept as-is, non-null
non-array objects are sanitized recursively, and everything else
(numbers, booleans, `null`, `undefined`, arrays) is copied unchanged. -/
def sanitizeEntryValue : JSVal → JSVal
  | .str s => .str (sanitizeString s)
  | .date y m d ms => .date y m d ms
  | .obj fs => .obj (sanitizeFields fs)
  | v => v

/-- The `for key in data` loop over the own enumerable fields of an
object, sanitizing each value. -/
def sanitizeFields : List (String × JSVal) → List (String × JSVal)
  | [] => []
  | (k, v) :: rest => (k, sanitizeEntryValue v) :: sanitizeFields rest

end

/-- `sanitizeFormData` from `src/utils/sanitize.ts`.  The guard
`!data || typeof data !== 'object'` throws exactly on `null` and on every
value whose `typeof` is not `'object'`; arrays and `Date`s are `'object'`
and pass the guard (for an array, `for key in` enumerates the index keys
`"0"`, `"1"`, …; a `Date` has no own enumerable keys, so the loop body
never runs and an empty record is returned).  The inner `try`/`catch`
rethrows, but the loop body is total, so no error escapes it. -/
def sanitizeFormData : JSVal → Except String JSVal
  | .obj fs => .ok (.obj (sanitizeFields fs))
  | .arr es => .ok (.obj (sanitizeFields (es.enum.map fun p => (toString p.1, p.2))))
  | .date _ _ _ _ => .ok (.obj [])
  | _ => .error "Invalid data: Expected an object"

mutual

/-- Spec-side description of the per-value sanitization (from the
specification text): every string value is replaced by `sanitizeString`
of it, `Date` values and other non-string non-object values pass through
unchanged, nested plain objects are sanitized recursively, and arrays
are not recursed into. -/
def sanitizeValueSpec : JSVal → JSVal
  | .str s => .str (sanitizeString s)
  | .obj fs => .obj (sanitizeFieldsSpec fs)
  | v => v

/-- Spec-side recursive sanitization of an object's fields. -/
def sanitizeFieldsSpec : List (String × JSVal) → List (String × JSVal)
  | [] => []
  | (k, v) :: rest => (k, sanitizeValueSpec v) :: sanitizeFieldsSpec rest

end

/-- `typeof v === 'object' && v !== null`, i.e. `v` is a JavaScript
object: a plain object, an array or a `Date`. -/
def isJsObject : JSVal → Prop
  | .obj _ => True
  | .arr _ => True
  | .date _ _ _ _ => True
  | _ => False

/-- A JavaScript `Date`, broken down in local civil time: year, month
(1–12), day of month, plus the milliseconds elapsed within the day. -/
structure CivilDate where
  year : Int
  month : Int
  day : Int
  ms : Int
  deriving DecidableEq, Repr

/-- Gregorian leap-year test. -/
def isLeapYear (y : Int) : Bool :=
  (y % 4 == 0 && y % 100 != 0) || y % 400 == 0

/-- Number of days in a month of the proleptic Gregorian calendar. -/
def daysInMonth (y m : Int) : Int :=
  if m = 2 then (if isLeapYear y then 29 else 28)
  else if m = 4 ∨ m = 6 ∨ m = 9 ∨ m = 11 then 30
  else 31

/-- Days from the Unix epoch 1970-01-01 to the civil date `y-m-d`
(the standard days-from-civil computation; all intermediate divisions
act on non-negative values, so floor division agrees with the original
truncating division). -/
def daysFromCivil (y m d : Int) : Int :=
  let y2 := if m ≤ 2 then y - 1 else y
  let era := Int.fdiv y2 400
  let yoe := y2 - era * 400
  let mp := if m > 2 then m - 3 else m + 9
  let doy := Int.fdiv (153 * mp + 2) 5 + d - 1
  let doe := yoe * 365 + Int.fdiv yoe 4 - Int.fdiv yoe 100 + doy
  era * 146097 + doe - 719468

/-- `Date.prototype.valueOf`: milliseconds since the Unix epoch. -/
def ts (dt : CivilDate) : Int :=
  daysFromCivil dt.year dt.month dt.day * 86400000 + dt.ms

/-- `dayjs#add(n, 'month')`: month arithmetic with the day of month
clamped to the length of the target month (dayjs sets the day to 1,
shifts the month — JavaScript `setMonth` normalises overflow into the
year — then restores `min(day, daysInMonth)`). -/
def addMonths (dt : CivilDate) (n : Int) : CivilDate :=
  let total := dt.year * 12 + (dt.month - 1) + n
  let y := Int.fdiv total 12
  let m := total - 12 * y + 1
  { year := y, month := m, day := min dt.day (daysInMonth y m), ms := dt.ms }

/-- The core of dayjs's `monthDiff(a, b)` (ported from moment.js),
in the branch where `a.date() ≥ b.date()` so no swap occurs. -/
def monthDiffCore (a b : CivilDate) : ℚ :=
  let w : Int := (b.year - a.year) * 12 + (b.month - a.month)
  let anchor := addMonths a w
  let c : Bool := ts b - ts anchor < 0
  let anchor2 := addMonths a (w + if c then -1 else 1)
  let den : ℚ := if c then ((ts anchor - ts anchor2 : Int) : ℚ)
    else ((ts anchor2 - ts anchor : Int) : ℚ)
  let r : ℚ := -((w : ℚ) + ((ts b - ts anchor : Int) : ℚ) / den)
  r

/-- dayjs `monthDiff(a, b)`: if the day of month of `a` precedes that of
`b` the arguments are swapped once and the result negated. -/
def monthDiff (a b : CivilDate) : ℚ :=
  if a.day < b.day then -(monthDiffCore b a) else monthDiffCore a b

/-- `end.diff(start, 'year', true)`: the fractional, calendar-aware
year difference, `monthDiff / 12`, returned unfloored because the
`float` flag is set. -/
def diffYears (endD startD : CivilDate) : ℚ :=
  monthDiff endD startD / 12

/-- JavaScript `isNaN` on a number. -/
def jsIsNaN : JSNum → Bool
  | .nan => true
  | _ => false

/-- JavaScript falsiness of a number (`!x`): `0` and `NaN` are falsy. -/
def jsFalsy : JSNum → Bool
  | .num q => q == 0
  | .nan => true
  | _ => false

/-- The JavaScript comparison `x <= 0` (false on `NaN`). -/
def jsLe0 : JSNum → Bool
  | .num q => decide (q ≤ 0)
  | .ninf => true
  | _ => false

/-- JavaScript multiplication on numbers, with the IEEE special values. -/
def jsMul : JSNum → JSNum → JSNum
  | .num a, .num b => .num (a * b)
  | .nan, _ => .nan
  | _, .nan => .nan
  | .inf, .num b => if 0 < b then .inf else if b < 0 then .ninf else .nan
  | .num a, .inf => if 0 < a then .inf else if a < 0 then .ninf else .nan
  | .ninf, .num b => if 0 < b then .ninf else if b < 0 then .inf else .nan
  | .num a, .ninf => if 0 < a then .ninf else if a < 0 then .inf else .nan
  | .inf, .inf => .inf
  | .inf, .ninf => .ninf
  | .ninf, .inf => .ninf
  | .ninf, .ninf => .inf

/-- JavaScript division on numbers (only ever used here with the
positive finite divisor `100`). -/
def jsDiv : JSNum → JSNum → JSNum
  | .nan, _ => .nan
  | _, .nan => .nan
  | .num a, .num b =>
      if b = 0 then (if a = 0 then .nan else if 0 < a then .inf else .ninf)
      else .num (a / b)
  | .inf, .num b => if 0 ≤ b then .inf else .ninf
  | .ninf, .num b => if 0 ≤ b then .ninf else .inf
  | .num _, .inf => .num 0
  | .num _, .ninf => .num 0
  | .inf, .inf => .nan
  | .inf, .ninf => .nan
  | .ninf, .inf => .nan
  | .ninf, .ninf => .nan

/-- JavaScript `Math.round`: round half toward positive infinity;
the special values are fixed points. -/
def jsRound : JSNum → JSNum
  | .num q => .num ((Rat.floor (q + 1/2) : Int) : ℚ)
  | v => v

/-- `Number.prototype.toFixed(4)` followed by numeric coercion, as used
by currency.js (`v.toFixed(4)` then `Math.round`): rounding to four
decimal places, ties toward the larger value; `Infinity` and `NaN`
round-trip through the strings `"Infinity"`/`"NaN"` unchanged. -/
def jsToFixed4 : JSNum → JSNum
  | .num q => .num (((Rat.floor (q * 10000 + 1/2) : Int) : ℚ) / 10000)
  | v => v

/-- currency.js `parse` on a number input with the default settings
(precision 2, `fromCents` false, `useRounding` true): scale by 100,
`toFixed(4)`, then `Math.round`.  The result is the `intValue` of
`currency(x)`. -/
def currencyParse (v : JSNum) : JSNum :=
  jsRound (jsToFixed4 (jsMul v (.num 100)))

/-- `currency(annualIncome).multiply(years).value` with the default
settings: `multiply` feeds `(intValue * years) / 10^2` back through the
constructor, and `.value` is the resulting `intValue / 10^2`. -/
def currencyMulValue (annual : JSNum) (years : ℚ) : JSNum :=
  let i := currencyParse annual
  let v2 := jsDiv (jsMul i (.num years)) (.num 100)
  jsDiv (currencyParse v2) (.num 100)

/-- `calculateTotalIncome` from `src/utils/calculations.ts`.  `now` is
the clock value used by the `dayjs()` default when `endDate` is absent.
The `isNaN` guard throws, the surrounding `try`/`catch` turns the
exception into `0`; a `Date` produced by the date picker is always a
valid date, so the two `isValid` throws are unreachable in this model. -/
def calculateTotalIncome (annualIncome : JSNum)
    (startDate endDate : Option CivilDate) (now : CivilDate) : JSNum :=
  if jsIsNaN annualIncome then .num 0
  else match startDate with
    | none => .num 0
    | some s =>
      if jsFalsy annualIncome || jsLe0 annualIncome then .num 0
      else
        let e := endDate.getD now
        if ts e < ts s then .num 0
        else currencyMulValue annualIncome (diffYears e s)

/-- The validation issues the zod `employmentSchema` can emit,
identified by the entries of its `ERROR_MESSAGES` table. -/
inductive IssueTag where
  | employerNameRequired
  | employerNameTooLong
  | currencyRequired
  | currencyInvalid
  | incomeNotPositive
  | incomeTooSmall
  | incomeTooLarge
  | startDateFuture
  | endDateBeforeStart
  | notesTooLong
  deriving DecidableEq, Repr

/-- The field path each issue is attached to; the cross-field refinement
names `employmentEndDate` explicitly via its `path` option. -/
def issuePath : IssueTag → List String
  | .employerNameRequired => ["employerName"]
  | .employerNameTooLong => ["employerName"]
  | .currencyRequired => ["currency"]
  | .currencyInvalid => ["currency"]
  | .incomeNotPositive => ["annualGrossIncome"]
  | .incomeTooSmall => ["annualGrossIncome"]
  | .incomeTooLarge => ["annualGrossIncome"]
  | .startDateFuture => ["employmentStartDate"]
  | .endDateBeforeStart => ["employmentEndDate"]
  | .notesTooLong => ["notes"]

/-- A record offered to `employmentSchema` with all fields present and
of the declared types (income is a non-`NaN` number, since zod rejects
`NaN` at the type level before any range check runs). -/
structure EmploymentRecord where
  employerName : String
  currency : String
  annualGrossIncome : ℚ
  employmentStartDate : CivilDate
  employmentEndDate : Option CivilDate
  notes : Option String

/-- `z.string().min(1).max(100).trim()`: zod runs the checks in the
order they are chained, so `min`/`max` see the UNTRIMMED string and the
`trim` entry is a transform that only rewrites the parsed value. -/
def employerNameIssues (s : String) : List IssueTag :=
  (if s.length < 1 then [.employerNameRequired] else []) ++
    (if 100 < s.length then [.employerNameTooLong] else [])

/-- The character class `[A-Z]` of the currency regex. -/
def isUpperAlpha (c : Char) : Bool :=
  decide ('A' ≤ c) && decide (c ≤ 'Z')

/-- `z.string().min(1).regex(/^[A-Z]{3}$/)`. -/
def currencyIssues (s : String) : List IssueTag :=
  (if s.length < 1 then [.currencyRequired] else []) ++
    (if s.length = 3 ∧ s.data.all isUpperAlpha then [] else [.currencyInvalid])

/-- `z.number().positive(...).min(1).max(1_000_000_000)`: three
independent checks, each contributing its own issue. -/
def incomeIssues (x : ℚ) : List IssueTag :=
  (if 0 < x then [] else [.incomeNotPositive]) ++
    (if x < 1 then [.incomeTooSmall] else []) ++
      (if 1000000000 < x then [.incomeTooLarge] else [])

/-- `z.date().refine((date) => date <= new Date())`: a start date
strictly after the clock value `now` fails. -/
def startDateIssues (now : CivilDate) (s : CivilDate) : List IssueTag :=
  if ts now < ts s then [.startDateFuture] else []

/-- `z.string().max(500).optional()`. -/
def notesIssues : Option String → List IssueTag
  | none => []
  | some s => if 500 < s.length then [.notesTooLong] else []

/-- All field-level issues of the base `z.object`. -/
def fieldIssues (now : CivilDate) (r : EmploymentRecord) : List IssueTag :=
  employerNameIssues r.employerName ++ currencyIssues r.currency ++
    incomeIssues r.annualGrossIncome ++
      startDateIssues now r.employmentStartDate ++ notesIssues r.notes

/-- The object-level `.refine`: when an end date is present and is on or
before the start date, one issue is attached at `employmentEndDate`. -/
def refineIssues (r : EmploymentRecord) : List IssueTag :=
  match r.employmentEndDate with
  | none => []
  | some e => if ts e ≤ ts r.employmentStartDate then [.endDateBeforeStart] else []

/-- Full validation by `employmentSchema`: zod runs the `.refine` of a
`ZodEffects` wrapper only when the inner object parse succeeded, so the
cross-field issue is only attached when there is no field-level issue.
Validation succeeds exactly when the issue list is empty. -/
def employmentIssues (now : CivilDate) (r : EmploymentRecord) : List IssueTag :=
  fieldIssues now r ++
    (if fieldIssues now r = [] then refineIssues r else [])

/-- `validateIncome` from `src/utils/sanitize.ts`:
`income >= 0 && income <= 1_000_000_000`. -/
def validateIncome (income : ℚ) : Bool :=
  decide (income ≥ 0) && decide (income ≤ 1000000000)

/-- The ECMAScript `\s` character class (whitespace and line
terminators), as matched by the employer-name pattern. -/
def isJsWhitespace (c : Char) : Bool :=
  c.toNat = 9 || c.toNat = 10 || c.toNat = 11 || c.toNat = 12 ||
    c.toNat = 13 || c.toNat = 32 || c.toNat = 160 || c.toNat = 5760 ||
    (8192 ≤ c.toNat && c.toNat ≤ 8202) || c.toNat = 8232 ||
    c.toNat = 8233 || c.toNat = 8239 || c.toNat = 8287 ||
    c.toNat = 12288 || c.toNat = 65279

/-- One character of the class `[a-zA-Z0-9\s\-.,&'()]` of
`validateEmployerName`. -/
def allowedNameChar (c : Char) : Bool :=
  (decide ('a' ≤ c) && decide (c ≤ 'z')) ||
    (decide ('A' ≤ c) && decide (c ≤ 'Z')) ||
    (decide ('0' ≤ c) && decide (c ≤ '9')) ||
    isJsWhitespace c || c = '-' || c = '.' || c = ',' || c = '&' ||
    c = Char.ofNat 39 || c = '(' || c = ')'

/-- `validateEmployerName` from `src/utils/sanitize.ts`:
`/^[a-zA-Z0-9\s\-.,&'()]+$/.test(name) && name.length <= 100`.
No trimming is performed anywhere in it. -/
def validateEmployerName (name : String) : Bool :=
  (!name.data.isEmpty) && name.data.all allowedNameChar &&
    decide (name.length ≤ 100)

/-- The trailing-edge debounce that `EmploymentForm.tsx` wraps around the
total-income computation via `useDebouncedCallback(…, 500)` (with the
default leading-edge off and no `maxWait`): a call at time `t` cancels
any pending timer and schedules the wrapped function at `t + delay`; the
timer fires only when no further call arrives before `t + delay`.
`debounceFires delay ts` lists the times the wrapped computation
actually runs, for a time-ordered list of call times `ts`. -/
def debounceFires (delay : ℚ) : List ℚ → List ℚ
  | [] => []
  | [t] => [t + delay]
  | t :: t2 :: rest =>
      (if t + delay ≤ t2 then [t + delay] else []) ++
        debounceFires delay (t2 :: rest)

theorem repl_append (c : Char) (r xs ys : List Char) :
    repl c r (xs ++ ys) = repl c r xs ++ repl c r ys := by
  induction xs with
  | nil => rfl
  | cons x xs ih => simp [repl, ih]

theorem sanitizeChars_append (xs ys : List Char) :
    sanitizeChars (xs ++ ys) = sanitizeChars xs ++ sanitizeChars ys := by
  simp [sanitizeChars, repl_append]

theorem repl_singleton (c : Char) (r : List Char) (x : Char) :
    repl c r [x] = if x = c then r else [x] := by
  simp [repl]

theorem sanitizeChars_singleton (c : Char) :
    sanitizeChars [c] = escapeTable c := by
  by_cases h1 : c = '&'
  · subst h1; decide
  by_cases h2 : c = '<'
  · subst h2; decide
  by_cases h3 : c = '>'
  · subst h3; decide
  by_cases h4 : c = Char.ofNat 34
  · subst h4; decide
  by_cases h5 : c = Char.ofNat 39
  · subst h5; decide
  by_cases h6 : c = '/'
  · subst h6; decide
  · simp [sanitizeChars, repl_singleton, escapeTable, h1, h2, h3, h4, h5, h6]

theorem sanitizeChars_eq_escapeSpecChars (s : List Char) :
    sanitizeChars s = escapeSpecChars s := by
  induction s with
  | nil => rfl
  | cons c cs ih =>
      have h : sanitizeChars ([c] ++ cs) = sanitizeChars [c] ++ sanitizeChars cs :=
        sanitizeChars_append [c] cs
      simpa [escapeSpecChars, sanitizeChars_singleton, ih] using h

/-- C1: for every runtime value, `sanitizeString` escapes exactly the six
characters `& < > " ' /` into `&amp; &lt; &gt; &quot; &#x27; &#x2F;`
character by character, leaving every other character unchanged (the six
sequential replacements, ampersand first, agree with the one-pass escape
table), and returns the empty string on every non-string input. -/
theorem sanitizeString_escapes_exactly_six (v : JSVal) :
    sanitizeStringJS v = sanitizeStringSpec v := by
  cases v with
  | str s =>
      simp [sanitizeStringJS, sanitizeStringSpec, sanitizeString,
        sanitizeChars_eq_escapeSpecChars]
  | numJ n => rfl
  | boolJ b => rfl
  | nullJ => rfl
  | undef => rfl
  | date y m d ms => rfl
  | obj fields => rfl
  | arr elems => rfl

/-- C6: `sanitizeString` is not idempotent: on the string `"<"` one pass
yields `"&lt;"`, and a second pass escapes the `&` of the entity again,
yielding `"&amp;lt;"`, which differs from the single pass. -/
theorem sanitizeString_not_idempotent :
    sanitizeString "<" = "&lt;" ∧
    sanitizeString (sanitizeString "<") = "&amp;lt;" ∧
    sanitizeString (sanitizeString "<") ≠ sanitizeString "<" := by
  refine ⟨by decide, by decide, by decide⟩

mutual

theorem sanitizeEntryValue_eq_spec (v : JSVal) :
    sanitizeEntryValue v = sanitizeValueSpec v := by
  cases v with
  | obj fs =>
      simp only [sanitizeEntryValue, sanitizeValueSpec]
      exact congrArg JSVal.obj (sanitizeFields_eq_spec fs)
  | str s => simp [sanitizeEntryValue, sanitizeValueSpec]
  | numJ n => simp [sanitizeEntryValue, sanitizeValueSpec]
  | boolJ b => simp [sanitizeEntryValue, sanitizeValueSpec]
  | nullJ => simp [sanitizeEntryValue, sanitizeValueSpec]
  | undef => simp [sanitizeEntryValue, sanitizeValueSpec]
  | date y m d ms => simp [sanitizeEntryValue, sanitizeValueSpec]
  | arr es => simp [sanitizeEntryValue, sanitizeValueSpec]

theorem sanitizeFields_eq_spec (fs : List (String × JSVal)) :
    sanitizeFields fs = sanitizeFieldsSpec fs := by
  match fs with
  | [] => rfl
  | (k, v) :: rest =>
      simp only [sanitizeFields, sanitizeFieldsSpec]
      exact congrArg₂ List.cons
        (congrArg (Prod.mk k) (sanitizeEntryValue_eq_spec v))
        (sanitizeFields_eq_spec rest)

end

/-- C5: `sanitizeFormData` fails exactly when the top-level input is
`null` or not an object; on every plain-object input it returns the
record with every field value sanitized as the specification describes
(strings escaped, `Date`s and other non-string non-object values
unchanged, nested plain objects recursed into, arrays not recursed
into), so a string element inside an array appears in the output
unescaped. -/
theorem sanitizeFormData_contract :
    (∀ v : JSVal, (∃ e, sanitizeFormData v = .error e) ↔ ¬ isJsObject v) ∧
    (∀ fs : List (String × JSVal),
      sanitizeFormData (.obj fs) = .ok (.obj (sanitizeFieldsSpec fs))) ∧
    (∀ es : List JSVal, sanitizeEntryValue (.arr es) = .arr es) ∧
    (∀ s : String, sanitizeValueSpec (.arr [.str s]) = .arr [.str s]) := by
  refine ⟨?_, ?_, ?_, ?_⟩
  · intro v
    cases v <;> simp [sanitizeFormData, isJsObject]
  · intro fs
    simp [sanitizeFormData, sanitizeFields_eq_spec]
  · intro es
    rfl
  · intro s
    rfl

/-- When an explicit end date is supplied, the computation never
consults the clock. -/
theorem calculateTotalIncome_now_irrelevant (a : JSNum) (s e : CivilDate)
    (now now2 : CivilDate) :
    calculateTotalIncome a (some s) (some e) now =
      calculateTotalIncome a (some s) (some e) now2 := by
  simp [calculateTotalIncome]

/-- C2: `calculateTotalIncome` returns `0` whenever the start date is
null, or the income compares `<= 0` in JavaScript (which holds for every
non-positive finite value and for `-Infinity`), or the end date is
strictly before the start date. -/
theorem calculateTotalIncome_zero_cases (income : JSNum)
    (startDate endDate : Option CivilDate) (now : CivilDate)
    (h : startDate = none ∨ jsLe0 income = true ∨
      (∃ s e, startDate = some s ∧ endDate = some e ∧ ts e < ts s)) :
    calculateTotalIncome income startDate endDate now = .num 0 := by
  rcases h with h | h | ⟨s, e, hs, he, hlt⟩
  · subst h
    cases income <;> simp [calculateTotalIncome, jsIsNaN]
  · cases startDate with
    | none => cases income <;> simp [calculateTotalIncome, jsIsNaN]
    | some s =>
        cases income with
        | num q => simp [calculateTotalIncome, jsIsNaN, h]
        | nan => simp [calculateTotalIncome, jsIsNaN]
        | inf => simp [jsLe0] at h
        | ninf => simp [calculateTotalIncome, jsIsNaN, h]
  · subst hs; subst he
    cases income with
    | nan => simp [calculateTotalIncome, jsIsNaN]
    | num q =>
        by_cases hf : (jsFalsy (JSNum.num q) || jsLe0 (JSNum.num q)) = true
        · simp [calculateTotalIncome, jsIsNaN, hf]
        · simp [calculateTotalIncome, jsIsNaN, hf, hlt]
    | inf => simp [calculateTotalIncome, jsIsNaN, jsFalsy, jsLe0, hlt]
    | ninf => simp [calculateTotalIncome, jsIsNaN, jsFalsy, jsLe0]

/-- Witness for C2: a negative income with an end date before the start
date yields `0`. -/
theorem calculateTotalIncome_zero_cases_witness :
    calculateTotalIncome (.num (-5)) (some ⟨2023, 1, 1, 0⟩)
      (some ⟨2022, 1, 1, 0⟩) ⟨1970, 1, 1, 0⟩ = .num 0 :=
  calculateTotalIncome_zero_cases (.num (-5)) (some ⟨2023, 1, 1, 0⟩)
    (some ⟨2022, 1, 1, 0⟩) ⟨1970, 1, 1, 0⟩ (Or.inr (Or.inl (by decide)))

/-- Counterexample to C3: with `annualIncome = +Infinity`, a valid start
date and an end date one year later, the `isNaN` guard does not fire,
`Infinity <= 0` is false, and `currency(Infinity).multiply(1)` yields
`Infinity` — the function returns `Infinity`, not `0`, although
`+Infinity` is not a finite number. -/
theorem calculateTotalIncome_posInf_not_zero :
    calculateTotalIncome .inf (some ⟨2023, 1, 1, 0⟩) (some ⟨2024, 1, 1, 0⟩)
        ⟨1970, 1, 1, 0⟩ = .inf ∧
    JSNum.inf ≠ JSNum.num 0 := by
  exact ⟨by decide, by decide⟩

/-- C3 (amended): of the non-finite incomes, `NaN` yields `0` (its
validation error is thrown and swallowed by the `try`/`catch`) and
`-Infinity` yields `0` (it satisfies the `<= 0` guard), for every
combination of dates; `+Infinity` is not treated as invalid (see the
counterexample).  Every failure path of the model is one of the
caught-and-absorbed branches returning `0`. -/
theorem calculateTotalIncome_nan_ninf_zero (startDate endDate : Option CivilDate)
    (now : CivilDate) :
    calculateTotalIncome .nan startDate endDate now = .num 0 ∧
    calculateTotalIncome .ninf startDate endDate now = .num 0 := by
  constructor
  · simp [calculateTotalIncome, jsIsNaN]
  · cases startDate with
    | none => simp [calculateTotalIncome, jsIsNaN]
    | some s => simp [calculateTotalIncome, jsIsNaN, jsFalsy, jsLe0]

/-- C8: a same-date-to-same-date span counts as exactly one calendar
year (both for Jan 1 → Jan 1 and for Feb 1 → Feb 1 across the leap year
2024, where a 365-day divisor would not give 1), and
`calculateTotalIncome(50000, 2023-01-01, 2024-01-01)` is exactly
`50000` under the two-decimal currency arithmetic, whatever the current
clock value. -/
theorem calculateTotalIncome_exact_one_year (now : CivilDate) :
    diffYears ⟨2024, 1, 1, 0⟩ ⟨2023, 1, 1, 0⟩ = 1 ∧
    diffYears ⟨2025, 2, 1, 0⟩ ⟨2024, 2, 1, 0⟩ = 1 ∧
    calculateTotalIncome (.num 50000) (some ⟨2023, 1, 1, 0⟩)
      (some ⟨2024, 1, 1, 0⟩) now = .num 50000 := by
  refine ⟨by decide, by decide, ?_⟩
  calc calculateTotalIncome (.num 50000) (some ⟨2023, 1, 1, 0⟩)
        (some ⟨2024, 1, 1, 0⟩) now
      = calculateTotalIncome (.num 50000) (some ⟨2023, 1, 1, 0⟩)
        (some ⟨2024, 1, 1, 0⟩) ⟨1970, 1, 1, 0⟩ :=
        calculateTotalIncome_now_irrelevant _ _ _ _ _
    _ = .num 50000 := by decide

/-- C4: the schema-level income rule accepts exactly the interval
`[1, 10^9]` (its `positive` check is subsumed by `min 1`), the
standalone `validateIncome` accepts exactly `[0, 10^9]`, and the two
predicates disagree precisely on the half-open interval `[0, 1)`. -/
theorem income_bounds_differ_on_unit_interval (x : ℚ) :
    (incomeIssues x = [] ↔ 1 ≤ x ∧ x ≤ 1000000000) ∧
    (validateIncome x = true ↔ 0 ≤ x ∧ x ≤ 1000000000) ∧
    (¬(incomeIssues x = [] ↔ validateIncome x = true) ↔ 0 ≤ x ∧ x < 1) := by
  have h1 : incomeIssues x = [] ↔ 1 ≤ x ∧ x ≤ 1000000000 := by
    unfold incomeIssues
    by_cases hp : (0 : ℚ) < x
    · by_cases hs : x < 1
      · rw [if_pos hp, if_pos hs]
        constructor
        · intro h; exact absurd h (by simp)
        · rintro ⟨h1x, _⟩; exact absurd hs (by linarith)
      · by_cases hl : (1000000000 : ℚ) < x
        · rw [if_pos hp, if_neg hs, if_pos hl]
          constructor
          · intro h; exact absurd h (by simp)
          · rintro ⟨_, hub⟩; exact absurd hl (by linarith)
        · rw [if_pos hp, if_neg hs, if_neg hl]
          simp only [List.append_nil, List.nil_append]
          constructor
          · intro _; exact ⟨le_of_not_lt hs, le_of_not_lt hl⟩
          · intro _; trivial
    · rw [if_neg hp]
      constructor
      · intro h; exact absurd h (by simp)
      · rintro ⟨h1x, _⟩; exact absurd hp (by simp; linarith)
  have h2 : validateIncome x = true ↔ 0 ≤ x ∧ x ≤ 1000000000 := by
    simp [validateIncome, ge_iff_le]
  refine ⟨h1, h2, ?_⟩
  rw [h1, h2]
  constructor
  · intro hne
    by_cases h0 : (0 : ℚ) ≤ x
    · by_cases hx1 : x < 1
      · exact ⟨h0, hx1⟩
      · exfalso
        apply hne
        constructor
        · rintro ⟨_, hub⟩; exact ⟨h0, hub⟩
        · rintro ⟨_, hub⟩; exact ⟨le_of_not_lt hx1, hub⟩
    · exfalso
      apply hne
      constructor
      · rintro ⟨h1x, _⟩; exact absurd (by linarith : (0 : ℚ) ≤ x) h0
      · rintro ⟨h0x, _⟩; exact absurd h0x h0
  · rintro ⟨h0, hx1⟩ hiff
    rcases hiff.mpr ⟨h0, by linarith⟩ with ⟨h1x, _⟩
    linarith

/-- C7: validation fails when the start date is strictly after the
current moment; when an end date is present and is on or before the
start date validation fails, and (whenever the field-level checks pass,
which is when zod runs the object-level refinement at all) the
cross-field issue is attached to the `employmentEndDate` path; a record
whose start date is not in the future and whose end date is strictly
after the start date triggers neither of these two rules. -/
theorem employmentSchema_date_rules (now : CivilDate) (r : EmploymentRecord) :
    (ts now < ts r.employmentStartDate → employmentIssues now r ≠ []) ∧
    (∀ e, r.employmentEndDate = some e →
      ts e ≤ ts r.employmentStartDate →
      employmentIssues now r ≠ [] ∧
      (fieldIssues now r = [] →
        IssueTag.endDateBeforeStart ∈ employmentIssues now r ∧
        issuePath .endDateBeforeStart = ["employmentEndDate"])) ∧
    (∀ e, r.employmentEndDate = some e →
      ts r.employmentStartDate ≤ ts now →
      ts r.employmentStartDate < ts e →
      IssueTag.startDateFuture ∉ employmentIssues now r ∧
      IssueTag.endDateBeforeStart ∉ employmentIssues now r) := by
  refine ⟨?_, ?_, ?_⟩
  · intro hfut hcontra
    simp [employmentIssues, fieldIssues, startDateIssues, hfut] at hcontra
  · intro e he hle
    constructor
    · by_cases hf : fieldIssues now r = []
      · simp [employmentIssues, hf, refineIssues, he, hle]
      · intro hcontra
        exact hf (List.append_eq_nil.mp hcontra).1
    · intro hf
      refine ⟨?_, rfl⟩
      simp [employmentIssues, hf, refineIssues, he, hle]
  · intro e he hnf hlt
    have hnfut : ¬ ts now < ts r.employmentStartDate := not_lt.mpr hnf
    have hnle : ¬ ts e ≤ ts r.employmentStartDate := not_le.mpr hlt
    cases hnotes : r.notes with
    | none =>
        constructor <;>
          simp [employmentIssues, fieldIssues, employerNameIssues,
            currencyIssues, incomeIssues, startDateIssues, notesIssues,
            refineIssues, he, hnotes, hnfut, hnle]
    | some nstr =>
        constructor <;>
          simp [employmentIssues, fieldIssues, employerNameIssues,
            currencyIssues, incomeIssues, startDateIssues, notesIssues,
            refineIssues, he, hnotes, hnfut, hnle]

/-- Witness for C7: a record whose start date (2025-01-01) is strictly
after the clock (2024-01-01) fails validation. -/
theorem employmentSchema_date_rules_witness :
    employmentIssues ⟨2024, 1, 1, 0⟩
      { employerName := "Acme", currency := "USD", annualGrossIncome := 50000,
        employmentStartDate := ⟨2025, 1, 1, 0⟩, employmentEndDate := none,
        notes := none } ≠ [] :=
  (employmentSchema_date_rules ⟨2024, 1, 1, 0⟩
    { employerName := "Acme", currency := "USD", annualGrossIncome := 50000,
      employmentStartDate := ⟨2025, 1, 1, 0⟩, employmentEndDate := none,
      notes := none }).1 (by decide)

/-- Counterexample to C10's contrast clause: a single space passes the
standalone `validateEmployerName`, and the full `employmentSchema`
validation also succeeds on a record whose employer name is `" "`: the
schema's `min(1)`/`max(100)` checks run BEFORE the `.trim()` transform,
so the untrimmed length `1` satisfies them and no issue is produced —
whitespace-only names are not rejected by the form rule. -/
theorem whitespace_name_passes_form_schema :
    validateEmployerName " " = true ∧
    employmentIssues ⟨2024, 1, 1, 0⟩
      { employerName := " ", currency := "USD", annualGrossIncome := 50000,
        employmentStartDate := ⟨2023, 1, 1, 0⟩, employmentEndDate := none,
        notes := none } = [] := by
  exact ⟨by decide, by decide⟩

/-- C10 (amended): `validateEmployerName` does not trim: every non-empty
string of at most 100 characters consisting only of `\s` whitespace
passes it, because whitespace is in its character class; the form-level
employer-name rule ALSO accepts such strings, because its length checks
run on the untrimmed value before the `.trim()` transform. -/
theorem validateEmployerName_whitespace (s : String)
    (hne : s.data ≠ []) (hws : s.data.all isJsWhitespace = true)
    (hlen : s.length ≤ 100) :
    validateEmployerName s = true ∧ employerNameIssues s = [] := by
  obtain ⟨sd⟩ := s
  have hdata : (String.mk sd).data = sd := rfl
  have hlenEq : (String.mk sd).length = sd.length := rfl
  rw [hdata] at hne hws
  rw [hlenEq] at hlen
  have hlen1 : 1 ≤ sd.length :=
    Nat.pos_of_ne_zero fun h => hne (List.eq_nil_of_length_eq_zero h)
  constructor
  · simp only [validateEmployerName, hdata, hlenEq, Bool.and_eq_true,
      decide_eq_true_eq]
    refine ⟨⟨?_, ?_⟩, hlen⟩
    · cases sd with
      | nil => exact absurd rfl hne
      | cons c cs => rfl
    · rw [List.all_eq_true]
      intro c hc
      have hcws := List.all_eq_true.mp hws c hc
      simp [allowedNameChar, hcws]
  · have h1 : ¬ sd.length < 1 := Nat.not_lt.mpr hlen1
    have h2 : ¬ 100 < sd.length := Nat.not_lt.mpr hlen
    simp [employerNameIssues, hlenEq, h1, h2]

/-- Witness for C10's amended claim, at the single-space string. -/
theorem validateEmployerName_whitespace_witness :
    validateEmployerName " " = true ∧ employerNameIssues " " = [] :=
  validateEmployerName_whitespace " " (by decide) (by decide) (by decide)

theorem debounceFires_burst (t : ℚ) (rest : List ℚ)
    (h : List.Chain (fun a b => a ≤ b ∧ b < a + 500) t rest) :
    debounceFires 500 (t :: rest) =
      [(t :: rest).getLast (List.cons_ne_nil t rest) + 500] := by
  induction rest generalizing t with
  | nil => simp [debounceFires]
  | cons t2 rest2 ih =>
      cases h with
      | cons hab hchain =>
          have hno : ¬ (t + 500 ≤ t2) := by
            rcases hab with ⟨_, hlt⟩
            linarith
          rw [debounceFires, if_neg hno, List.nil_append, ih t2 hchain]
          rw [List.getLast_cons (List.cons_ne_nil t2 rest2)]

theorem debounceFires_sound (l : List ℚ) (hs : l.Pairwise (· ≤ ·)) :
    ∀ u ∈ debounceFires 500 l, ∃ tt, tt ∈ l ∧ u = tt + 500 ∧
      ∀ t2 ∈ l, ¬(tt < t2 ∧ t2 < tt + 500) := by
  induction l with
  | nil => intro u hu; simp [debounceFires] at hu
  | cons t rest ih =>
      rcases List.pairwise_cons.mp hs with ⟨hhead, htail⟩
      cases rest with
      | nil =>
          intro u hu
          rw [debounceFires] at hu
          rcases List.mem_singleton.mp hu with rfl
          refine ⟨t, List.mem_singleton_self t, rfl, ?_⟩
          rintro t2 ht2 ⟨hlt, _⟩
          rcases List.mem_singleton.mp ht2 with rfl
          exact lt_irrefl _ hlt
      | cons t2 rest2 =>
          intro u hu
          rw [debounceFires] at hu
          rcases List.mem_append.mp hu with hu1 | hu2
          · by_cases hc : t + 500 ≤ t2
            · rw [if_pos hc] at hu1
              rcases List.mem_singleton.mp hu1 with rfl
              refine ⟨t, List.mem_cons_self t _, rfl, ?_⟩
              rintro x hx ⟨hlt, hlt2⟩
              rcases List.mem_cons.mp hx with rfl | hx2
              · exact lt_irrefl _ hlt
              · have ht2x : t2 ≤ x := by
                  rcases List.mem_cons.mp hx2 with rfl | hx3
                  · exact le_refl _
                  · exact (List.pairwise_cons.mp htail).1 x hx3
                linarith
            · rw [if_neg hc] at hu1
              exact absurd hu1 (List.not_mem_nil u)
          · rcases ih htail u hu2 with ⟨tt, htt, heq, hquiet⟩
            refine ⟨tt, List.mem_cons_of_mem t htt, heq, ?_⟩
            rintro x hx hxw
            rcases List.mem_cons.mp hx with rfl | hx2
            · exact absurd hxw.1 (not_lt.mpr (hhead tt htt))
            · exact hquiet x hx2 hxw

/-- C9: under the 500 ms trailing-edge debounce, (a) every run of the
computation is scheduled 500 ms after some edit that is followed by a
full 500 ms quiet window — so there is at most one run per quiet window —
and (b) for any burst of edits in which each edit arrives less than
500 ms after the previous one, exactly one run happens, 500 ms after the
last edit. -/
theorem debounce_at_most_once_per_quiet_window :
    (∀ l : List ℚ, l.Pairwise (· ≤ ·) →
      ∀ u ∈ debounceFires 500 l, ∃ tt, tt ∈ l ∧ u = tt + 500 ∧
        ∀ t2 ∈ l, ¬(tt < t2 ∧ t2 < tt + 500)) ∧
    (∀ (t : ℚ) (rest : List ℚ),
      List.Chain (fun a b => a ≤ b ∧ b < a + 500) t rest →
      debounceFires 500 (t :: rest) =
        [(t :: rest).getLast (List.cons_ne_nil t rest) + 500]) :=
  ⟨debounceFires_sound, debounceFires_burst⟩

/-- Witness for C9: ten edits 20 ms apart (all inside a 200 ms window)
produce exactly one computation, 500 ms after the last edit. -/
theorem debounce_at_most_once_per_quiet_window_witness :
    debounceFires 500 [0, 20, 40, 60, 80, 100, 120, 140, 160, 180] = [680] := by
  have h := debounce_at_most_once_per_quiet_window.2 0
    [20, 40, 60, 80, 100, 120, 140, 160, 180]
    (by simp only [List.chain_cons, List.Chain.nil]; norm_num)
  simpa [List.getLast] using h
